import Mathlib

/-!
Verification of the Project-Organizer data-management core.

The definitions below are a shallow embedding of the Python sources:

* `models.py`        : the `Task` and `Project` dataclasses.
* `task_managing.py` : `TaskManager.add_task`, `remove_task`,
  `toggle_task_completion` and `change_task_priority` (the same
  priority-shift loop is duplicated in `main.py`,
  `MainWindow.change_task_priority`).
* `main.py`          : the `on_done` handler of
  `MainWindow.edit_project_details`, in its two modes.
* `data.py`          : `load_projects` and `save_projects`.

Python object identity is modelled by list indices (a mutated object is
the element at a fixed index); Python `==` on dataclasses is field-wise
equality and is modelled by decidable equality on the structures; the
GUI dialogs only deliver a text or a chosen item, so an operation takes
that delivered value as an argument.  Whether the persistence callback
(`save_callback` / `save_projects`) ran is returned as a `Bool` where a
claim depends on it.
-/

namespace ProjectOrganizer

/-- The `Task` dataclass of `models.py`: a name, a completion flag and an
integer priority (Python integers are unbounded, hence `Int`). -/
structure Task where
  name : String
  completed : Bool
  priority : Int
deriving DecidableEq, Repr

/-- The `Project` dataclass of `models.py`: a name, a description and a
list of tasks. -/
structure Project where
  name : String
  description : String
  tasks : List Task
deriving DecidableEq, Repr

/-- Python `str.strip()` with no argument: remove leading and trailing
whitespace (for the ASCII whitespace relevant to this program). -/
def pyStrip (s : String) : String :=
  String.mk (((s.data.dropWhile Char.isWhitespace).reverse.dropWhile
    Char.isWhitespace).reverse)

/-- One pass of the shift loops inside `change_task_priority`
(`task_managing.py` lines 153-161): the body applied to a task `t` of
the project, where `task` is the task being re-ranked.  Python compares
`t != task` by field-wise dataclass equality, and each `t` is visited
once before it is mutated, so a single `map` over the list reproduces
the in-place loop. -/
def shiftTask (task : Task) (new_priority old_priority : Int) (t : Task) : Task :=
  if new_priority < old_priority then
    if t ≠ task ∧ new_priority ≤ t.priority ∧ t.priority < old_priority then
      { t with priority := t.priority + 1 }
    else t
  else
    if t ≠ task ∧ old_priority < t.priority ∧ t.priority ≤ new_priority then
      { t with priority := t.priority - 1 }
    else t

/-- Core of `TaskManager.change_task_priority` (`task_managing.py` lines
149-165), reached once the dialog returned `(priority, ok)` with
`ok = True` and a non-empty `priority` string: read the old priority, do
nothing if the new one equals it, otherwise shift the intervening tasks
and write `new_priority` into the re-ranked task.  The re-ranked task is
the list element at index `i` (Python object identity); an index outside
the list corresponds to no task and nothing happens. -/
def change_task_priority (tasks : List Task) (i : Nat) (new_priority : Int) : List Task :=
  match tasks[i]? with
  | none => tasks
  | some task =>
    if new_priority = task.priority then tasks
    else
      (tasks.map (shiftTask task new_priority task.priority)).set i
        { task with priority := new_priority }

/-- The option list offered by the priority dialog
(`task_managing.py` line 139): `[str(i) for i in range(1, num_tasks + 1)]`. -/
def priority_options (num_tasks : Nat) : List String :=
  (List.range' 1 num_tasks).map (fun i => toString i)

/-- `TaskManager.add_task` (`task_managing.py` lines 69-83) after the
input dialog returned `(task_name, ok)`: reject a cancelled dialog or a
whitespace-only name, reject a name already present among the tasks of
the project, otherwise append a task with priority `len + 1`.  The
returned flag says whether the task was appended (and the collection
saved). -/
def add_task (tasks : List Task) (task_name : String) (ok : Bool) : List Task × Bool :=
  if !ok || pyStrip task_name = "" then (tasks, false)
  else if (tasks.map Task.name).contains task_name then (tasks, false)
  else
    (tasks ++ [{ name := task_name, completed := false, priority := (tasks.length : Int) + 1 }],
     true)

/-- `TaskManager.toggle_task_completion` (`task_managing.py` lines
98-108): set the completion flag of the task at index `i` to the
checkbox state. -/
def toggle_task_completion (tasks : List Task) (i : Nat) (checked : Bool) : List Task :=
  match tasks[i]? with
  | none => tasks
  | some t => tasks.set i { t with completed := checked }

/-- `TaskManager.remove_task` (`task_managing.py` lines 85-96): if the
project exists and the task is a member of its list (Python `in`, by
field-wise equality), remove its first occurrence (Python
`list.remove`) and invoke the save callback; otherwise do nothing.  The
project is the collection element at index `k`; the `Bool` reports
whether the save callback ran. -/
def remove_task (projects : List Project) (k : Nat) (task : Task) : List Project × Bool :=
  match projects[k]? with
  | none => (projects, false)
  | some project =>
    if task ∈ project.tasks then
      (projects.set k { project with tasks := project.tasks.erase task }, true)
    else (projects, false)

/-- Outcome of the `on_done` handler of `MainWindow.edit_project_details`
(`main.py` lines 445-474): the dialog was accepted, or one of the two
warning boxes was shown and the handler returned early. -/
inductive EditOutcome where
  | accepted
  | warnedEmptyName
  | warnedNameConflict
deriving DecidableEq, Repr

/-- The `on_done` handler of `main.py` (lines 445-474) in mode `"add"`.
The call site (line 304) passes the fresh dummy
`Project(name="", description="")`, never stored in the collection;
`nameText` and `descText` are the texts of the two input fields.  Note
the handler tests `project.name` (the dummy, always the empty string)
against the existing names, not the entered `name`. -/
def add_project_done (projects : List Project) (nameText descText : String) :
    EditOutcome × List Project :=
  let name := pyStrip nameText
  let desc := pyStrip descText
  let dummy : Project := { name := "", description := "", tasks := [] }
  if name = "" then (.warnedEmptyName, projects)
  else if ((projects.filter (fun p => p ≠ dummy)).map Project.name).contains dummy.name then
    (.warnedNameConflict, projects)
  else (.accepted, projects ++ [{ name := name, description := desc, tasks := [] }])

/-- The `on_done` handler of `main.py` (lines 445-474) in mode `"edit"`,
for the project at index `k` of the collection.  Faithful to the source
order: the handler first assigns `project.name = name`, and only then
performs the empty-name and name-collision checks (the collision check
filters the collection by field-wise inequality with the already-renamed
project); the description is assigned only when both checks pass. -/
def edit_project_done (projects : List Project) (k : Nat) (nameText descText : String) :
    EditOutcome × List Project :=
  match projects[k]? with
  | none => (.accepted, projects)
  | some proj =>
    let name := pyStrip nameText
    let desc := pyStrip descText
    let proj1 := { proj with name := name }
    let ps1 := projects.set k proj1
    if proj1.name = "" then (.warnedEmptyName, ps1)
    else if ((ps1.filter (fun p => p ≠ proj1)).map Project.name).contains proj1.name then
      (.warnedNameConflict, ps1)
    else (.accepted, ps1.set k { proj1 with description := desc })

/-- JSON values as produced by `json.load` for the documents this
program reads and writes.  Numbers are restricted to integers: every
number the program itself writes is an `int`, and no claim depends on
float contents. -/
inductive JValue where
  | jnull
  | jbool (b : Bool)
  | jint (n : Int)
  | jstr (s : String)
  | jarr (items : List JValue)
  | jobj (fields : List (String × JValue))

/-- The serialization of one task, `task.__dict__` inside
`save_projects` (`data.py` line 60): field order is the dataclass
declaration order `name`, `completed`, `priority`. -/
def task_to_dict (t : Task) : JValue :=
  .jobj [("name", .jstr t.name), ("completed", .jbool t.completed),
         ("priority", .jint t.priority)]

/-- The `project_to_dict` helper of `save_projects` (`data.py` lines
48-61): a dict with the keys `name`, `description`, `tasks` in that
order. -/
def project_to_dict (p : Project) : JValue :=
  .jobj [("name", .jstr p.name), ("description", .jstr p.description),
         ("tasks", .jarr (p.tasks.map task_to_dict))]

/-- The full document written by `save_projects` (`data.py` line 63):
a JSON array of the serialized projects. -/
def projects_to_json (ps : List Project) : JValue :=
  .jarr (ps.map project_to_dict)

/-- Python dict lookup on a parsed JSON object: with duplicate keys in
the source text, `json.load` keeps the last binding. -/
def dget (fields : List (String × JValue)) (key : String) : Option JValue :=
  (fields.reverse.find? (fun kv => kv.1 == key)).map (fun kv => kv.2)

/-- The uncaught Python exceptions the decoding path of `load_projects`
can raise on schema-shaped surprises. -/
inductive PyExn where
  | attributeError
  | keyError
  | typeError
deriving DecidableEq, Repr

/-- Why decoding stopped: a raised Python exception, or a content on
which Python would build a field value outside the typed model (for
example a task whose `name` is a number: `Task(**t)` performs no type
check, so Python would succeed with an ill-typed record that the `Task`
structure cannot represent; no claim depends on such contents). -/
inductive DecodeStop where
  | exn (e : PyExn)
  | outsideModel
deriving DecidableEq, Repr

/-- The construction `Task(**t)` for one entry `t` of a `tasks` array
(`data.py` line 21): `t` must be a mapping or `TypeError` is raised; an
unexpected keyword or a missing `name` also raise `TypeError`; the
keyword values themselves are not type-checked by Python. -/
def decode_task (v : JValue) : Except DecodeStop Task :=
  match v with
  | .jobj fields =>
    if !(fields.all (fun kv => kv.1 == "name" || kv.1 == "completed" || kv.1 == "priority")) then
      .error (.exn .typeError)
    else if !(fields.any (fun kv => kv.1 == "name")) then
      .error (.exn .typeError)
    else
      match dget fields "name", (dget fields "completed").getD (.jbool false),
            (dget fields "priority").getD (.jint 1) with
      | some (.jstr n), .jbool c, .jint p => .ok { name := n, completed := c, priority := p }
      | _, _, _ => .error .outsideModel
  | _ => .error (.exn .typeError)

/-- The comprehension `[Task(**t) for t in proj.get("tasks", [])]` over
an already-listed iterable: items are decoded left to right and the
first exception aborts. -/
def decode_tasks : List JValue → Except DecodeStop (List Task)
  | [] => .ok []
  | v :: vs =>
    match decode_task v with
    | .error e => .error e
    | .ok t =>
      match decode_tasks vs with
      | .error e => .error e
      | .ok ts => .ok (t :: ts)

/-- Decoding of one element of the top-level array inside
`load_projects` (`data.py` lines 20-26).  A non-dict element raises
`AttributeError` at `proj.get`.  For a dict: the tasks value defaults to
`[]`; iterating a non-list tasks value yields `TypeError` at
`Task(**t)` unless it is an empty string or empty dict (zero
iterations); then `proj["name"]` raises `KeyError` when absent, and the
description defaults to the placeholder sentence. -/
def decode_project (v : JValue) : Except DecodeStop Project :=
  match v with
  | .jobj fields =>
    let tasksVal := (dget fields "tasks").getD (.jarr [])
    let tasksRes : Except DecodeStop (List Task) :=
      match tasksVal with
      | .jarr items => decode_tasks items
      | .jstr s => if s = "" then .ok [] else .error (.exn .typeError)
      | .jobj kvs => if kvs.isEmpty then .ok [] else .error (.exn .typeError)
      | _ => .error (.exn .typeError)
    match tasksRes with
    | .error e => .error e
    | .ok ts =>
      match dget fields "name" with
      | none => .error (.exn .keyError)
      | some (.jstr n) =>
        match (dget fields "description").getD (.jstr "No description provided.") with
        | .jstr d => .ok { name := n, description := d, tasks := ts }
        | _ => .error .outsideModel
      | some _ => .error .outsideModel
  | _ => .error (.exn .attributeError)

/-- The loop `for proj in data` of `load_projects`: elements are decoded
left to right, the first exception propagates out of the function. -/
def decode_projects : List JValue → Except DecodeStop (List Project)
  | [] => .ok []
  | v :: vs =>
    match decode_project v with
    | .error e => .error e
    | .ok p =>
      match decode_projects vs with
      | .error e => .error e
      | .ok ps => .ok (p :: ps)

/-- The state of the backing file as `load_projects` sees it: the file
is missing (`FileNotFoundError`), its content is not parseable JSON
(`json.JSONDecodeError`), or it parses to a JSON value. -/
inductive FileContent where
  | missing
  | invalidText
  | parsed (v : JValue)

/-- What a call of `load_projects` does: return a project list (the
`diagnostic` flag records whether the decode-error message was
printed), raise an uncaught exception, or build a value outside the
typed model. -/
inductive LoadOutcome where
  | ok (ps : List Project) (diagnostic : Bool)
  | raised (e : PyExn)
  | outsideModel
deriving Repr

/-- `load_projects` of `data.py` (lines 5-32).  A missing file and
unparseable text are caught and yield the empty list (the latter with a
printed diagnostic).  A parsed value is iterated by `for proj in data`:
a list iterates its elements; a dict iterates its keys, so a non-empty
dict reaches `proj.get` with a string and raises `AttributeError`; a
string iterates its characters with the same effect unless empty;
numbers, booleans and `null` are not iterable and raise `TypeError`. -/
def load_projects (fc : FileContent) : LoadOutcome :=
  match fc with
  | .missing => .ok [] false
  | .invalidText => .ok [] true
  | .parsed v =>
    match v with
    | .jarr items =>
      match decode_projects items with
      | .ok ps => .ok ps false
      | .error (.exn e) => .raised e
      | .error .outsideModel => .outsideModel
    | .jstr s => if s = "" then .ok [] false else .raised .attributeError
    | .jobj kvs => if kvs.isEmpty then .ok [] false else .raised .attributeError
    | _ => .raised .typeError

/-- Lower-case hexadecimal digit, as Python `"\\u%04x"` prints it. -/
def hexDigitChar (n : Nat) : Char :=
  if n < 10 then Char.ofNat (48 + n) else Char.ofNat (87 + n)

/-- Four-digit hexadecimal rendering of a code unit. -/
def hex4 (n : Nat) : String :=
  String.mk [hexDigitChar (n / 4096 % 16), hexDigitChar (n / 256 % 16),
             hexDigitChar (n / 16 % 16), hexDigitChar (n % 16)]

/-- Escaping of one character by `json.dump` with its default
`ensure_ascii=True`: the two-character escapes, printable ASCII kept
as-is, everything else as `\\uXXXX` (a surrogate pair beyond the basic
plane). -/
def escChar (c : Char) : String :=
  if c = Char.ofNat 34 then "\\\""
  else if c = Char.ofNat 92 then "\\\\"
  else if c = Char.ofNat 10 then "\\n"
  else if c = Char.ofNat 9 then "\\t"
  else if c = Char.ofNat 13 then "\\r"
  else if c = Char.ofNat 8 then "\\b"
  else if c = Char.ofNat 12 then "\\f"
  else if 32 ≤ c.toNat ∧ c.toNat ≤ 126 then String.singleton c
  else if c.toNat < 65536 then "\\u" ++ hex4 c.toNat
  else
    let v := c.toNat - 65536
    "\\u" ++ hex4 (55296 + v / 1024) ++ "\\u" ++ hex4 (56320 + v % 1024)

/-- A JSON string literal as `json.dump` writes it. -/
def jsonStr (s : String) : String :=
  "\"" ++ String.join (s.data.map escChar) ++ "\""

/-- Python booleans in JSON. -/
def pyBool (b : Bool) : String := if b then "true" else "false"

/-- Leading indentation at nesting level `lvl` for `indent=4`. -/
def indentStr (lvl : Nat) : String := String.mk (List.replicate (4 * lvl) ' ')

/-- One serialized task as `json.dump(..., indent=4)` lays it out at
nesting level `lvl`: keys in dict insertion order `name`, `completed`,
`priority`, item separator a comma plus newline, key separator a colon
plus space. -/
def render_task (lvl : Nat) (t : Task) : String :=
  "\x7b\n" ++ indentStr (lvl + 1) ++ "\"name\": " ++ jsonStr t.name ++ ",\n"
  ++ indentStr (lvl + 1) ++ "\"completed\": " ++ pyBool t.completed ++ ",\n"
  ++ indentStr (lvl + 1) ++ "\"priority\": " ++ toString t.priority ++ "\n"
  ++ indentStr lvl ++ "\x7d"

/-- A JSON array at nesting level `lvl` from its already-rendered
items: `json.dump` prints an empty array as `[]` and otherwise puts
each item on its own indented line. -/
def renderArr (lvl : Nat) (items : List String) : String :=
  match items with
  | [] => "[]"
  | _ =>
    "[\n" ++ indentStr (lvl + 1) ++ String.intercalate (",\n" ++ indentStr (lvl + 1)) items
    ++ "\n" ++ indentStr lvl ++ "]"

/-- One serialized project at nesting level `lvl`: keys in insertion
order `name`, `description`, `tasks`. -/
def render_project (lvl : Nat) (p : Project) : String :=
  "\x7b\n" ++ indentStr (lvl + 1) ++ "\"name\": " ++ jsonStr p.name ++ ",\n"
  ++ indentStr (lvl + 1) ++ "\"description\": " ++ jsonStr p.description ++ ",\n"
  ++ indentStr (lvl + 1) ++ "\"tasks\": "
  ++ renderArr (lvl + 1) (p.tasks.map (render_task (lvl + 2))) ++ "\n"
  ++ indentStr lvl ++ "\x7d"

/-- The exact file content written by `save_projects` (`data.py` line
63): `json.dump([project_to_dict(proj) for proj in projects], file,
indent=4)`. -/
def save_projects_content (ps : List Project) : String :=
  renderArr 0 (ps.map (render_project 1))

/-- The consecutive integers `s, s+1, ..., s+n-1`. -/
def intsFrom (s : Int) : Nat → List Int
  | 0 => []
  | n + 1 => s :: intsFrom (s + 1) n

/-- The priority range `1, ..., n` of the spec invariant. -/
def intRange (n : Nat) : List Int := intsFrom 1 n

/-- Spec invariant (section 3): the multiset of task priorities of a
project is exactly one of each of `1, ..., N` where `N` is the task
count. -/
def priorsPerm (ts : List Task) : Prop :=
  (ts.map Task.priority).Perm (intRange ts.length)

/-- The effect of a re-rank on one priority value: the moved rank goes
to `newP`, ranks strictly between move by one slot towards the old
rank, the rest stay.  Used to state what `change_task_priority` does to
the list of priorities. -/
def rankMove (newP oldP q : Int) : Int :=
  if q = oldP then newP
  else if newP < oldP then
    if newP ≤ q ∧ q < oldP then q + 1 else q
  else
    if oldP < q ∧ q ≤ newP then q - 1 else q

/-- One user-driven task operation of the claim sequences: an
`add_task` with its entered name, a `change_task_priority` on the task
at index `i` with a rank picked from the dialog options, or a
completion toggle. -/
inductive Op where
  | addTask (name : String)
  | setPriority (i : Nat) (p : Int)
  | toggleCompletion (i : Nat) (c : Bool)

/-- Execution of one operation against the task list of a project.  A
rejected `add_task` leaves the list unchanged; a `setPriority` only
happens with a rank among the dialog options `1, ..., N` (a cancelled
dialog changes nothing). -/
def execOp (ts : List Task) : Op → List Task
  | .addTask name => (add_task ts name true).1
  | .setPriority i p =>
    if 1 ≤ p ∧ p ≤ (ts.length : Int) then change_task_priority ts i p else ts
  | .toggleCompletion i c => toggle_task_completion ts i c

/-- A finite sequence of operations run against an initially empty task
list. -/
def runOps (ops : List Op) : List Task :=
  ops.foldl execOp []

theorem map_id_of_mem {α : Type} (l : List α) (f : α → α) (h : ∀ q ∈ l, f q = q) :
    l.map f = l := by
  induction l with
  | nil => rfl
  | cons a t ih =>
    simp only [List.map_cons, h a (List.mem_cons_self a t)]
    rw [ih (fun q hq => h q (List.mem_cons_of_mem a hq))]

theorem intsFrom_append (s : Int) (m n : Nat) :
    intsFrom s (m + n) = intsFrom s m ++ intsFrom (s + m) n := by
  induction m generalizing s with
  | zero => simp [intsFrom]
  | succ k ih =>
    have h : k + 1 + n = (k + n) + 1 := by omega
    rw [h]
    show s :: intsFrom (s + 1) (k + n) = (s :: intsFrom (s + 1) k) ++ intsFrom (s + (k + 1)) n
    rw [ih]
    have h2 : s + 1 + (k : Int) = s + ((k : Int) + 1) := by ring
    rw [List.cons_append, h2]

theorem mem_intsFrom (s q : Int) (n : Nat) : q ∈ intsFrom s n ↔ s ≤ q ∧ q < s + n := by
  induction n generalizing s with
  | zero => simp [intsFrom]
  | succ k ih =>
    simp only [intsFrom, List.mem_cons, ih]
    push_cast
    omega

theorem intsFrom_map_add_one (s : Int) (n : Nat) :
    (intsFrom s n).map (fun q => q + 1) = intsFrom (s + 1) n := by
  induction n generalizing s with
  | zero => rfl
  | succ k ih => simp only [intsFrom, List.map_cons, ih]

theorem intsFrom_map_sub_one (s : Int) (n : Nat) :
    (intsFrom s n).map (fun q => q - 1) = intsFrom (s - 1) n := by
  induction n generalizing s with
  | zero => rfl
  | succ k ih =>
    simp only [intsFrom, List.map_cons, ih]
    have h : s + 1 - 1 = s - 1 + 1 := by ring
    rw [h]

theorem intsFrom_nodup (s : Int) (n : Nat) : (intsFrom s n).Nodup := by
  induction n generalizing s with
  | zero => simp [intsFrom]
  | succ k ih =>
    simp only [intsFrom, List.nodup_cons]
    refine ⟨fun hmem => ?_, ih (s + 1)⟩
    rw [mem_intsFrom] at hmem
    omega

theorem intsFrom_snoc (s : Int) (n : Nat) :
    intsFrom s (n + 1) = intsFrom s n ++ [s + n] := by
  rw [intsFrom_append s n 1]
  rfl

theorem intsFrom_length (s : Int) (n : Nat) : (intsFrom s n).length = n := by
  induction n generalizing s with
  | zero => rfl
  | succ k ih => simp only [intsFrom, List.length_cons, ih]

/-- Moving one rank inside the dense range `1, ..., N` permutes the
range: the interval between the old and the new rank shifts by one
slot and the old rank lands on the new one. -/
theorem rankMove_perm (N : Nat) (newP oldP : Int)
    (h1 : 1 ≤ newP) (h2 : newP ≤ N) (h3 : 1 ≤ oldP) (h4 : oldP ≤ N) (h5 : newP ≠ oldP) :
    List.Perm ((intRange N).map (rankMove newP oldP)) (intRange N) := by
  rcases lt_or_gt_of_ne h5 with hlt | hgt
  · -- the task moves to a more urgent rank
    set n1 := (newP - 1).toNat with hn1
    set n2 := (oldP - newP).toNat with hn2
    set n3 := (N - oldP).toNat with hn3
    have c1 : (n1 : Int) = newP - 1 := by omega
    have c2 : (n2 : Int) = oldP - newP := by omega
    have c3 : (n3 : Int) = (N : Int) - oldP := by omega
    have hN : N = n1 + (n2 + (1 + n3)) := by omega
    have hdec : intRange N =
        intsFrom 1 n1 ++ (intsFrom newP n2 ++ (oldP :: intsFrom (oldP + 1) n3)) := by
      rw [intRange, hN, intsFrom_append, intsFrom_append, intsFrom_append]
      have e1 : 1 + (n1 : Int) = newP := by omega
      have e2 : newP + (n2 : Int) = oldP := by omega
      rw [e1, e2]
      rfl
    rw [hdec]
    rw [List.map_append, List.map_append, List.map_cons]
    have mA : (intsFrom 1 n1).map (rankMove newP oldP) = intsFrom 1 n1 := by
      apply map_id_of_mem
      intro q hq
      rw [mem_intsFrom] at hq
      simp only [rankMove]
      rw [if_neg (by omega), if_pos hlt, if_neg (by omega)]
    have mB : (intsFrom newP n2).map (rankMove newP oldP) = intsFrom (newP + 1) n2 := by
      have hB : (intsFrom newP n2).map (rankMove newP oldP) =
          (intsFrom newP n2).map (fun q => q + 1) := by
        apply List.map_congr_left
        intro q hq
        rw [mem_intsFrom] at hq
        simp only [rankMove]
        rw [if_neg (by omega), if_pos hlt, if_pos (by omega)]
      rw [hB, intsFrom_map_add_one]
    have mo : rankMove newP oldP oldP = newP := by
      simp [rankMove]
    have mC : (intsFrom (oldP + 1) n3).map (rankMove newP oldP) = intsFrom (oldP + 1) n3 := by
      apply map_id_of_mem
      intro q hq
      rw [mem_intsFrom] at hq
      simp only [rankMove]
      rw [if_neg (by omega), if_pos hlt, if_neg (by omega)]
    rw [mA, mB, mo, mC]
    apply List.Perm.append_left
    have hmid : intsFrom newP n2 ++ oldP :: intsFrom (oldP + 1) n3 =
        (newP :: intsFrom (newP + 1) n2) ++ intsFrom (oldP + 1) n3 := by
      have e2 : newP + (n2 : Int) = oldP := by omega
      rw [show intsFrom newP n2 ++ oldP :: intsFrom (oldP + 1) n3 =
            (intsFrom newP n2 ++ [oldP]) ++ intsFrom (oldP + 1) n3 by simp]
      rw [show intsFrom newP n2 ++ [oldP] = intsFrom newP (n2 + 1) by
            rw [intsFrom_snoc, e2]]
      rfl
    rw [hmid]
    rw [show intsFrom (newP + 1) n2 ++ newP :: intsFrom (oldP + 1) n3 =
          (intsFrom (newP + 1) n2 ++ [newP]) ++ intsFrom (oldP + 1) n3 by simp]
    exact List.Perm.append_right _ List.perm_append_comm
  · -- the task moves to a less urgent rank
    set n1 := (oldP - 1).toNat with hn1
    set n2 := (newP - oldP).toNat with hn2
    set n3 := (N - newP).toNat with hn3
    have c1 : (n1 : Int) = oldP - 1 := by omega
    have c2 : (n2 : Int) = newP - oldP := by omega
    have c3 : (n3 : Int) = (N : Int) - newP := by omega
    have hN : N = n1 + ((n2 + 1) + n3) := by omega
    have hdec : intRange N =
        intsFrom 1 n1 ++ ((oldP :: intsFrom (oldP + 1) n2) ++ intsFrom (newP + 1) n3) := by
      rw [intRange, hN, intsFrom_append, intsFrom_append]
      have e1 : 1 + (n1 : Int) = oldP := by omega
      have e2 : oldP + ((n2 + 1 : Nat) : Int) = newP + 1 := by push_cast; omega
      rw [e1, e2]
      rfl
    rw [hdec]
    rw [List.map_append, List.map_append, List.map_cons]
    have mA : (intsFrom 1 n1).map (rankMove newP oldP) = intsFrom 1 n1 := by
      apply map_id_of_mem
      intro q hq
      rw [mem_intsFrom] at hq
      simp only [rankMove]
      rw [if_neg (by omega), if_neg (by omega), if_neg (by omega)]
    have mo : rankMove newP oldP oldP = newP := by
      simp [rankMove]
    have mM : (intsFrom (oldP + 1) n2).map (rankMove newP oldP) = intsFrom oldP n2 := by
      have hM : (intsFrom (oldP + 1) n2).map (rankMove newP oldP) =
          (intsFrom (oldP + 1) n2).map (fun q => q - 1) := by
        apply List.map_congr_left
        intro q hq
        rw [mem_intsFrom] at hq
        simp only [rankMove]
        rw [if_neg (by omega), if_neg (by omega), if_pos (by omega)]
      rw [hM, intsFrom_map_sub_one]
      rw [show oldP + 1 - 1 = oldP by ring]
    have mC : (intsFrom (newP + 1) n3).map (rankMove newP oldP) = intsFrom (newP + 1) n3 := by
      apply map_id_of_mem
      intro q hq
      rw [mem_intsFrom] at hq
      simp only [rankMove]
      rw [if_neg (by omega), if_neg (by omega), if_neg (by omega)]
    rw [mA, mo, mM, mC]
    apply List.Perm.append_left
    have e2 : oldP + (n2 : Int) = newP := by omega
    have hmid : (oldP :: intsFrom (oldP + 1) n2) ++ intsFrom (newP + 1) n3 =
        (intsFrom oldP n2 ++ [newP]) ++ intsFrom (newP + 1) n3 := by
      rw [show oldP :: intsFrom (oldP + 1) n2 = intsFrom oldP (n2 + 1) from rfl]
      rw [intsFrom_snoc, e2]
    rw [hmid]
    rw [show newP :: intsFrom oldP n2 ++ intsFrom (newP + 1) n3 =
          ([newP] ++ intsFrom oldP n2) ++ intsFrom (newP + 1) n3 by simp]
    exact List.Perm.append_right _ List.perm_append_comm

theorem rankMove_of_ne (newP oldP p : Int) (h : p ≠ oldP) :
    (if newP < oldP ∧ newP ≤ p ∧ p < oldP then p + 1
     else if oldP < newP ∧ oldP < p ∧ p ≤ newP then p - 1 else p) = rankMove newP oldP p := by
  simp only [rankMove]
  split_ifs <;> omega

/-- Pointwise description of one `change_task_priority` call: the list
keeps its length, the re-ranked slot gets the requested priority, and
every other slot keeps its task with the priority shifted by one
exactly when it lies in the displaced interval; names and completion
flags are untouched everywhere. -/
theorem change_task_priority_get (tasks : List Task) (i : Nat) (task : Task) (newP : Int)
    (hi : tasks[i]? = some task) :
    (change_task_priority tasks i newP).length = tasks.length
    ∧ (change_task_priority tasks i newP)[i]? = some { task with priority := newP }
    ∧ ∀ j, j ≠ i → (change_task_priority tasks i newP)[j]? =
        (tasks[j]?).map (fun t =>
          { t with priority :=
              if newP < task.priority ∧ newP ≤ t.priority ∧ t.priority < task.priority then
                t.priority + 1
              else if task.priority < newP ∧ task.priority < t.priority ∧ t.priority ≤ newP then
                t.priority - 1
              else t.priority }) := by
  have hlen : i < tasks.length := by
    rcases List.getElem?_eq_some_iff.mp hi with ⟨h, _⟩
    exact h
  by_cases he : newP = task.priority
  · have hr : change_task_priority tasks i newP = tasks := by
      simp only [change_task_priority, hi, if_pos he]
    rw [hr]
    refine ⟨rfl, ?_, ?_⟩
    · rw [hi, he]
    · intro j hj
      cases hjv : tasks[j]? with
      | none => rfl
      | some t =>
        rw [Option.map_some']
        have hc1 : ¬(newP < task.priority ∧ newP ≤ t.priority ∧ t.priority < task.priority) := by
          omega
        have hc2 : ¬(task.priority < newP ∧ task.priority < t.priority ∧ t.priority ≤ newP) := by
          omega
        rw [if_neg hc1, if_neg hc2]
  · have hr : change_task_priority tasks i newP =
        (tasks.map (shiftTask task newP task.priority)).set i
          { task with priority := newP } := by
      simp only [change_task_priority, hi, if_neg he]
    rw [hr]
    refine ⟨by simp, ?_, ?_⟩
    · rw [List.getElem?_set_self (by simpa using hlen)]
    · intro j hj
      rw [List.getElem?_set_ne (Ne.symm hj), List.getElem?_map]
      cases hjv : tasks[j]? with
      | none => rfl
      | some t =>
        rw [Option.map_some', Option.map_some']
        by_cases h1 : newP < task.priority
        · simp only [shiftTask, if_pos h1]
          by_cases h2 : t ≠ task ∧ newP ≤ t.priority ∧ t.priority < task.priority
          · rw [if_pos h2, if_pos ⟨h1, h2.2.1, h2.2.2⟩]
          · rw [if_neg h2]
            have hc1 : ¬(newP < task.priority ∧ newP ≤ t.priority
                ∧ t.priority < task.priority) := by
              intro hc
              by_cases ht : t = task
              · subst ht
                omega
              · exact h2 ⟨ht, hc.2.1, hc.2.2⟩
            have hc2 : ¬(task.priority < newP ∧ task.priority < t.priority
                ∧ t.priority ≤ newP) := by
              omega
            rw [if_neg hc1, if_neg hc2]
        · simp only [shiftTask, if_neg h1]
          by_cases h2 : t ≠ task ∧ task.priority < t.priority ∧ t.priority ≤ newP
          · rw [if_pos h2]
            have ho : task.priority < newP := by
              rcases h2 with ⟨-, hp1, hp2⟩
              omega
            rw [if_neg (by omega), if_pos ⟨ho, h2.2.1, h2.2.2⟩]
          · rw [if_neg h2]
            have hc1 : ¬(newP < task.priority ∧ newP ≤ t.priority
                ∧ t.priority < task.priority) := by
              omega
            have hc2 : ¬(task.priority < newP ∧ task.priority < t.priority
                ∧ t.priority ≤ newP) := by
              intro hc
              by_cases ht : t = task
              · subst ht
                omega
              · exact h2 ⟨ht, hc.2.1, hc.2.2⟩
            rw [if_neg hc1, if_neg hc2]

/-- Effect of one `change_task_priority` call on the list of
priorities, under the no-duplicate-priorities invariant: the priority
list is mapped through `rankMove`. -/
theorem change_task_priority_prios (tasks : List Task) (i : Nat) (task : Task) (newP : Int)
    (hi : tasks[i]? = some task) (hnd : (tasks.map Task.priority).Nodup) :
    (change_task_priority tasks i newP).map Task.priority =
      (tasks.map Task.priority).map (rankMove newP task.priority) := by
  obtain ⟨hlen, hget, hother⟩ := change_task_priority_get tasks i task newP hi
  have hibound : i < tasks.length := by
    rcases List.getElem?_eq_some_iff.mp hi with ⟨h, _⟩
    exact h
  apply List.ext_getElem?
  intro j
  rw [List.getElem?_map, List.getElem?_map, List.getElem?_map]
  by_cases hj : j = i
  · subst hj
    rw [hget, hi, Option.map_some', Option.map_some', Option.map_some']
    have : rankMove newP task.priority task.priority = newP := by
      simp [rankMove]
    rw [this]
  · rw [hother j hj]
    cases hjv : tasks[j]? with
    | none => rfl
    | some t =>
      rw [Option.map_some', Option.map_some', Option.map_some']
      have hjbound : j < tasks.length := by
        rcases List.getElem?_eq_some_iff.mp hjv with ⟨h, _⟩
        exact h
      have hne : t.priority ≠ task.priority := by
        intro hcontra
        have hjb2 : j < (tasks.map Task.priority).length := by simpa using hjbound
        have hib2 : i < (tasks.map Task.priority).length := by simpa using hibound
        have e1 : (tasks.map Task.priority)[j] = t.priority := by
          rw [List.getElem_map]
          rcases List.getElem?_eq_some_iff.mp hjv with ⟨h, hv⟩
          rw [hv]
        have e2 : (tasks.map Task.priority)[i] = task.priority := by
          rw [List.getElem_map]
          rcases List.getElem?_eq_some_iff.mp hi with ⟨h, hv⟩
          rw [hv]
        have : j = i := by
          have hinj := @List.Nodup.getElem_inj_iff _ (tasks.map Task.priority) hnd
            j hjb2 i hib2
          apply hinj.mp
          rw [e1, e2, hcontra]
        exact hj this
      rw [rankMove_of_ne _ _ _ hne]
      rfl

theorem priorsPerm_nil : priorsPerm [] := by
  simp [priorsPerm, intRange, intsFrom]

theorem add_task_preserves (ts : List Task) (nm : String) (ok : Bool) (h : priorsPerm ts) :
    priorsPerm (add_task ts nm ok).1 := by
  unfold add_task
  split
  · exact h
  split
  · exact h
  · unfold priorsPerm at h ⊢
    simp only [List.map_append, List.map_cons, List.map_nil, List.length_append,
      List.length_cons, List.length_nil]
    rw [intRange, intsFrom_snoc]
    refine List.Perm.append h ?_
    rw [show (1 : Int) + (ts.length : Int) = (ts.length : Int) + 1 by ring]

theorem setPriority_preserves (ts : List Task) (i : Nat) (p : Int)
    (hp1 : 1 ≤ p) (hp2 : p ≤ (ts.length : Int)) (h : priorsPerm ts) :
    priorsPerm (change_task_priority ts i p) := by
  cases hi : ts[i]? with
  | none =>
    have hr : change_task_priority ts i p = ts := by
      simp only [change_task_priority, hi]
    rw [hr]
    exact h
  | some task =>
    by_cases hpe : p = task.priority
    · have hr : change_task_priority ts i p = ts := by
        simp only [change_task_priority, hi, if_pos hpe]
      rw [hr]
      exact h
    · have hnd : (ts.map Task.priority).Nodup :=
        (List.Perm.nodup_iff h).mpr (intsFrom_nodup 1 ts.length)
      have hlen := (change_task_priority_get ts i task p hi).1
      have hmem : task.priority ∈ intRange ts.length := by
        have hb := (List.getElem?_eq_some_iff.mp hi).1
        have hv := (List.getElem?_eq_some_iff.mp hi).2
        have hmem2 : task.priority ∈ ts.map Task.priority := by
          apply List.mem_map_of_mem
          rw [← hv]
          exact List.getElem_mem hb
        exact h.mem_iff.mp hmem2
      rw [intRange, mem_intsFrom] at hmem
      unfold priorsPerm
      rw [hlen, change_task_priority_prios ts i task p hi hnd]
      exact (h.map (rankMove p task.priority)).trans
        (rankMove_perm ts.length p task.priority hp1 hp2 (by omega) (by omega) hpe)

theorem toggle_preserves (ts : List Task) (i : Nat) (c : Bool) (h : priorsPerm ts) :
    priorsPerm (toggle_task_completion ts i c) := by
  cases hi : ts[i]? with
  | none =>
    have hr : toggle_task_completion ts i c = ts := by
      simp only [toggle_task_completion, hi]
    rw [hr]
    exact h
  | some t =>
    have hb : i < ts.length := (List.getElem?_eq_some_iff.mp hi).1
    have hr : toggle_task_completion ts i c = ts.set i { t with completed := c } := by
      simp only [toggle_task_completion, hi]
    rw [hr]
    unfold priorsPerm
    rw [List.length_set]
    have hmap : (ts.set i { t with completed := c }).map Task.priority =
        ts.map Task.priority := by
      rw [List.map_set]
      apply List.ext_getElem?
      intro j
      by_cases hj : j = i
      · subst hj
        rw [List.getElem?_set_self (by simpa using hb), List.getElem?_map, hi, Option.map_some']
      · rw [List.getElem?_set_ne (Ne.symm hj)]
    rw [hmap]
    exact h

theorem execOp_preserves (ts : List Task) (op : Op) (h : priorsPerm ts) :
    priorsPerm (execOp ts op) := by
  cases op with
  | addTask nm => exact add_task_preserves ts nm true h
  | setPriority i p =>
    simp only [execOp]
    split
    next hp => exact setPriority_preserves ts i p hp.1 hp.2 h
    next => exact h
  | toggleCompletion i c => exact toggle_preserves ts i c h

theorem foldl_execOp_preserves (ops : List Op) :
    ∀ ts, priorsPerm ts → priorsPerm (ops.foldl execOp ts) := by
  induction ops with
  | nil => exact fun ts h => h
  | cons op rest ih => exact fun ts h => ih _ (execOp_preserves ts op h)

theorem decode_task_to_dict (t : Task) : decode_task (task_to_dict t) = .ok t := by
  rfl

theorem decode_tasks_map (ts : List Task) :
    decode_tasks (ts.map task_to_dict) = .ok ts := by
  induction ts with
  | nil => rfl
  | cons t rest ih => simp only [List.map_cons, decode_tasks, decode_task_to_dict, ih]

theorem decode_project_to_dict (p : Project) :
    decode_project (project_to_dict p) = .ok p := by
  simp [decode_project, project_to_dict, dget, decode_tasks_map]

theorem decode_projects_map (ps : List Project) :
    decode_projects (ps.map project_to_dict) = .ok ps := by
  induction ps with
  | nil => rfl
  | cons p rest ih => simp only [List.map_cons, decode_projects, decode_project_to_dict, ih]

/-- C1: for every project and every task it contains (the list element
at index `i`), a `setPriority` request with `newPriority` in `[1, N]`
behaves as specified: nothing changes when the requested rank equals
the current one; a more urgent request increments every other task
whose priority lies in `[newPriority, old)` by exactly one; a less
urgent request decrements every other task whose priority lies in
`(old, newPriority]` by exactly one; the moved task ends at
`newPriority`; tasks outside the affected range, and every name and
completion flag, are unchanged; the list keeps its length. -/
theorem C1_setPriority_moves (tasks : List Task) (i : Nat) (task : Task) (newP : Int)
    (hi : tasks[i]? = some task) (h1 : 1 ≤ newP) (h2 : newP ≤ (tasks.length : Int)) :
    (change_task_priority tasks i newP).length = tasks.length
    ∧ (change_task_priority tasks i newP)[i]? = some { task with priority := newP }
    ∧ ∀ j, j ≠ i → ∀ t, tasks[j]? = some t →
        (change_task_priority tasks i newP)[j]? = some
          { t with priority :=
              if newP < task.priority ∧ newP ≤ t.priority ∧ t.priority < task.priority then
                t.priority + 1
              else if task.priority < newP ∧ task.priority < t.priority ∧ t.priority ≤ newP then
                t.priority - 1
              else t.priority } := by
  obtain ⟨hl, hg, ho⟩ := change_task_priority_get tasks i task newP hi
  refine ⟨hl, hg, ?_⟩
  intro j hj t ht
  rw [ho j hj, ht, Option.map_some']

/-- Witness for C1: moving the rank-3 task of a three-task project to
rank 1 shifts the other two tasks down by one slot. -/
theorem C1_setPriority_moves_witness :
    (([⟨"a", false, 1⟩, ⟨"b", false, 2⟩, ⟨"c", false, 3⟩] : List Task)[2]?
        = some ⟨"c", false, 3⟩)
    ∧ (1 : Int) ≤ 1
    ∧ (1 : Int) ≤ (([⟨"a", false, 1⟩, ⟨"b", false, 2⟩, ⟨"c", false, 3⟩] : List Task).length : Int)
    ∧ (change_task_priority [⟨"a", false, 1⟩, ⟨"b", false, 2⟩, ⟨"c", false, 3⟩] 2 1).length = 3
    ∧ (change_task_priority [⟨"a", false, 1⟩, ⟨"b", false, 2⟩, ⟨"c", false, 3⟩] 2 1)[2]?
        = some ⟨"c", false, 1⟩
    ∧ (change_task_priority [⟨"a", false, 1⟩, ⟨"b", false, 2⟩, ⟨"c", false, 3⟩] 2 1)[0]?
        = some ⟨"a", false, 2⟩
    ∧ (change_task_priority [⟨"a", false, 1⟩, ⟨"b", false, 2⟩, ⟨"c", false, 3⟩] 2 1)[1]?
        = some ⟨"b", false, 3⟩ := by
  obtain ⟨hl, hg, ho⟩ := C1_setPriority_moves
    [⟨"a", false, 1⟩, ⟨"b", false, 2⟩, ⟨"c", false, 3⟩] 2 ⟨"c", false, 3⟩ 1
    rfl (by norm_num) (by norm_num)
  refine ⟨rfl, by norm_num, by norm_num, hl, ?_, ?_, ?_⟩
  · simpa using hg
  · have h0 := ho 0 (by decide) ⟨"a", false, 1⟩ rfl
    simpa using h0
  · have h1 := ho 1 (by decide) ⟨"b", false, 2⟩ rfl
    simpa using h1

/-- C2: starting from an empty task list, after any finite sequence of
successful `addTask` calls (each optional follow-up ranking step being
a `setPriority` with a rank among the offered options), `setPriority`
calls and `toggleCompletion` calls — and no `removeTask` — the multiset
of the task priorities of the project is exactly one of each of
`1, ..., N`, where `N` is the current task count. -/
theorem C2_priority_bijection (ops : List Op) : priorsPerm (runOps ops) :=
  foldl_execOp_preserves ops [] priorsPerm_nil

/-- C3: evaluation of the code at the failing input.  With one existing
project named Home, entering the name Home in the add-project dialog is
accepted: a second project named Home is appended, because the handler
compares the dummy project name (always empty) instead of the entered
name against the collection.  The claimed NameConflict rejection does
not happen. -/
theorem C3_duplicate_name_accepted :
    add_project_done [⟨"Home", "x", []⟩] "Home" "y"
      = (.accepted, [⟨"Home", "x", []⟩, ⟨"Home", "y", []⟩])
    ∧ add_project_done [⟨"Home", "x", []⟩] "Home" "y"
      ≠ (.warnedNameConflict, [⟨"Home", "x", []⟩]) := by
  refine ⟨rfl, ?_⟩
  intro h
  rw [show add_project_done [⟨"Home", "x", []⟩] "Home" "y"
      = (.accepted, [⟨"Home", "x", []⟩, ⟨"Home", "y", []⟩]) from rfl] at h
  simp at h

/-- C4 counterexample: a request of rank 5 on a two-task project (any
rank outside `[1, 2]`) is not rejected — the shift runs and the moved
task ends with the out-of-range priority 5. -/
theorem C4_out_of_range_cex :
    change_task_priority [⟨"a", false, 1⟩, ⟨"b", false, 2⟩] 0 5
      = [⟨"a", false, 5⟩, ⟨"b", false, 1⟩]
    ∧ change_task_priority [⟨"a", false, 1⟩, ⟨"b", false, 2⟩] 0 5
      ≠ [⟨"a", false, 1⟩, ⟨"b", false, 2⟩] := by
  exact ⟨by decide, by decide⟩

/-- C4 amended: the code contains no OutOfRange rejection.  Requested
ranks are constrained to `[1, N]` only because the selection dialog
offers exactly the options `1, ..., N`; if a rank outside `[1, N]` and
different from the current one nevertheless reaches the mutation logic,
it is applied — the task priority becomes that out-of-range value. -/
theorem C4_out_of_range_amended (tasks : List Task) (i : Nat) (task : Task) (newP : Int)
    (hi : tasks[i]? = some task) (hne : newP ≠ task.priority)
    (hout : newP < 1 ∨ (tasks.length : Int) < newP) :
    (change_task_priority tasks i newP)[i]? = some { task with priority := newP }
    ∧ priority_options tasks.length
      = (List.range tasks.length).map (fun k => toString (k + 1)) := by
  refine ⟨(change_task_priority_get tasks i task newP hi).2.1, ?_⟩
  rw [priority_options, List.range'_eq_map_range, List.map_map]
  apply List.map_congr_left
  intro k _
  simp [Nat.add_comm]

/-- Witness for the amended C4: rank 5 in a two-task project is applied
and the dialog for two tasks offers exactly the options 1 and 2. -/
theorem C4_out_of_range_amended_witness :
    (([⟨"a", false, 1⟩, ⟨"b", false, 2⟩] : List Task)[0]? = some ⟨"a", false, 1⟩)
    ∧ (5 : Int) ≠ (1 : Int)
    ∧ ((5 : Int) < 1 ∨ (([⟨"a", false, 1⟩, ⟨"b", false, 2⟩] : List Task).length : Int) < 5)
    ∧ (change_task_priority [⟨"a", false, 1⟩, ⟨"b", false, 2⟩] 0 5)[0]?
        = some ⟨"a", false, 5⟩
    ∧ priority_options 2 = ["1", "2"] := by
  obtain ⟨ha, hb⟩ := C4_out_of_range_amended [⟨"a", false, 1⟩, ⟨"b", false, 2⟩] 0
    ⟨"a", false, 1⟩ 5 rfl (by norm_num) (by norm_num)
  refine ⟨rfl, by norm_num, by norm_num, ?_, ?_⟩
  · simpa using ha
  · rw [show ([⟨"a", false, 1⟩, ⟨"b", false, 2⟩] : List Task).length = 2 from rfl] at hb
    rw [hb]
    rfl

/-- C5: loading the document written by save reproduces the collection
exactly, so saving again produces byte-identical file content; the
serialization itself has fixed key order and indentation by
construction of `save_projects_content`. -/
theorem C5_save_load_save (ps : List Project) :
    (match load_projects (.parsed (projects_to_json ps)) with
     | .ok ps2 _ => some (save_projects_content ps2)
     | .raised _ => none
     | .outsideModel => none) = some (save_projects_content ps) := by
  have h : load_projects (.parsed (projects_to_json ps)) = .ok ps false := by
    simp only [load_projects, projects_to_json, decode_projects_map]
  rw [h]

/-- C6 counterexample: the JSON document `[42]` is well-formed JSON of
the wrong shape, and `load_projects` raises an uncaught AttributeError
on it (at `proj.get`) instead of returning an empty collection. -/
theorem C6_wrong_shape_raises :
    load_projects (.parsed (.jarr [.jint 42])) = .raised .attributeError
    ∧ load_projects (.parsed (.jarr [.jint 42])) ≠ .ok [] false
    ∧ load_projects (.parsed (.jarr [.jint 42])) ≠ .ok [] true := by
  refine ⟨rfl, ?_, ?_⟩ <;> intro h <;>
    · rw [show load_projects (.parsed (.jarr [.jint 42])) = .raised .attributeError
          from rfl] at h
      exact LoadOutcome.noConfusion h

/-- C6 amended: a missing backing file yields an empty collection
without raising, and unparseable text yields an empty collection with
the printed diagnostic; but well-formed JSON of the wrong shape is not
recovered — a top-level array containing a number raises an uncaught
AttributeError. -/
theorem C6_load_amended :
    load_projects .missing = .ok [] false
    ∧ load_projects .invalidText = .ok [] true
    ∧ load_projects (.parsed (.jarr [.jint 42])) = .raised .attributeError :=
  ⟨rfl, rfl, rfl⟩

/-- C7: removing a task that is present removes exactly that task (one
occurrence) and changes nothing else: the save callback runs, the
remaining tasks of the project keep their order, names, completion
flags and priorities (the erased list is a sublist of the original, so
no renumbering happens and a gap may remain), and every other project
is untouched. -/
theorem C7_remove_task_frame (projects : List Project) (k : Nat) (proj : Project) (task : Task)
    (hk : projects[k]? = some proj) (ht : task ∈ proj.tasks) :
    (remove_task projects k task).2 = true
    ∧ (remove_task projects k task).1[k]? = some { proj with tasks := proj.tasks.erase task }
    ∧ (∀ j, j ≠ k → (remove_task projects k task).1[j]? = projects[j]?)
    ∧ (proj.tasks.erase task).length + 1 = proj.tasks.length
    ∧ (proj.tasks.erase task).Sublist proj.tasks
    ∧ (proj.tasks.erase task).count task + 1 = proj.tasks.count task
    ∧ ∀ t, t ≠ task → (proj.tasks.erase task).count t = proj.tasks.count t := by
  have hb : k < projects.length := (List.getElem?_eq_some_iff.mp hk).1
  have hr : remove_task projects k task =
      (projects.set k { proj with tasks := proj.tasks.erase task }, true) := by
    simp only [remove_task, hk, if_pos ht]
  refine ⟨by rw [hr], ?_, ?_, ?_, List.erase_sublist task proj.tasks, ?_, ?_⟩
  · rw [hr]
    exact List.getElem?_set_self (by simpa using hb)
  · intro j hj
    rw [hr]
    exact List.getElem?_set_ne (Ne.symm hj)
  · rw [List.length_erase_of_mem ht]
    have hpos : 0 < proj.tasks.length := List.length_pos_of_mem ht
    omega
  · rw [List.count_erase_self]
    have hpos : 0 < proj.tasks.count task := List.count_pos_iff.mpr ht
    omega
  · intro t htne
    exact List.count_erase_of_ne htne _

/-- Witness for C7: removing the first task of a two-task project
leaves the second task (with its priority gap) and the other project
untouched; the save callback runs. -/
theorem C7_remove_task_frame_witness :
    (([⟨"P", "d", [⟨"t", false, 1⟩, ⟨"u", true, 2⟩]⟩, ⟨"Q", "e", []⟩] : List Project)[0]?
        = some ⟨"P", "d", [⟨"t", false, 1⟩, ⟨"u", true, 2⟩]⟩)
    ∧ (⟨"t", false, 1⟩ : Task) ∈ ([⟨"t", false, 1⟩, ⟨"u", true, 2⟩] : List Task)
    ∧ (remove_task [⟨"P", "d", [⟨"t", false, 1⟩, ⟨"u", true, 2⟩]⟩, ⟨"Q", "e", []⟩] 0
        ⟨"t", false, 1⟩).2 = true
    ∧ (remove_task [⟨"P", "d", [⟨"t", false, 1⟩, ⟨"u", true, 2⟩]⟩, ⟨"Q", "e", []⟩] 0
        ⟨"t", false, 1⟩).1[0]? = some ⟨"P", "d", [⟨"u", true, 2⟩]⟩
    ∧ (remove_task [⟨"P", "d", [⟨"t", false, 1⟩, ⟨"u", true, 2⟩]⟩, ⟨"Q", "e", []⟩] 0
        ⟨"t", false, 1⟩).1[1]? = some ⟨"Q", "e", []⟩ := by
  obtain ⟨h1, h2, h3, h4, h5, h6, h7⟩ := C7_remove_task_frame
    [⟨"P", "d", [⟨"t", false, 1⟩, ⟨"u", true, 2⟩]⟩, ⟨"Q", "e", []⟩] 0
    ⟨"P", "d", [⟨"t", false, 1⟩, ⟨"u", true, 2⟩]⟩ ⟨"t", false, 1⟩ rfl (by decide)
  refine ⟨rfl, by decide, h1, ?_, ?_⟩
  · simpa using h2
  · have := h3 1 (by decide)
    simpa using this

/-- C8: evaluation of the code at the failing inputs.  A rename
rejected for an empty name, or for colliding with another project name,
is reported through the warning box, but the project name has already
been overwritten when the handler returns: the collection is left
renamed, contrary to the claim that it is unchanged. -/
theorem C8_rename_rejected_mutates :
    edit_project_done [⟨"A", "d", []⟩] 0 "" "z"
      = (.warnedEmptyName, [⟨"", "d", []⟩])
    ∧ edit_project_done [⟨"A", "d", []⟩, ⟨"B", "e", []⟩] 0 "B" "z"
      = (.warnedNameConflict, [⟨"B", "d", []⟩, ⟨"B", "e", []⟩])
    ∧ (edit_project_done [⟨"A", "d", []⟩] 0 "" "z").2 ≠ [⟨"A", "d", []⟩] := by
  refine ⟨rfl, rfl, ?_⟩
  intro h
  rw [show (edit_project_done [⟨"A", "d", []⟩] 0 "" "z").2 = [⟨"", "d", []⟩] from rfl] at h
  simp at h

/-- C9: requesting the rank a task already has is a no-op on the whole
task list, whatever the remaining state is. -/
theorem C9_setPriority_self_noop (tasks : List Task) (i : Nat) (task : Task)
    (hi : tasks[i]? = some task) :
    change_task_priority tasks i task.priority = tasks := by
  simp [change_task_priority, hi]

/-- Witness for C9: re-ranking the rank-2 task of a two-task project to
rank 2 changes nothing. -/
theorem C9_setPriority_self_noop_witness :
    (([⟨"a", false, 1⟩, ⟨"b", false, 2⟩] : List Task)[1]? = some ⟨"b", false, 2⟩)
    ∧ change_task_priority [⟨"a", false, 1⟩, ⟨"b", false, 2⟩] 1 2
      = [⟨"a", false, 1⟩, ⟨"b", false, 2⟩] := by
  refine ⟨rfl, ?_⟩
  have h := C9_setPriority_self_noop [⟨"a", false, 1⟩, ⟨"b", false, 2⟩] 1 ⟨"b", false, 2⟩ rfl
  simpa using h

/-- C10: removing a task value that is not in the project task list is
a silent no-op: no error is reported, nothing changes, and the save
callback does not run. -/
theorem C10_remove_absent_noop (projects : List Project) (k : Nat) (proj : Project) (task : Task)
    (hk : projects[k]? = some proj) (ht : task ∉ proj.tasks) :
    remove_task projects k task = (projects, false) := by
  simp only [remove_task, hk, if_neg ht]

/-- Witness for C10: removing a task value absent from the project
changes nothing and skips the save callback. -/
theorem C10_remove_absent_noop_witness :
    (([⟨"P", "d", [⟨"t", false, 1⟩]⟩] : List Project)[0]? = some ⟨"P", "d", [⟨"t", false, 1⟩]⟩)
    ∧ (⟨"zz", false, 1⟩ : Task) ∉ ([⟨"t", false, 1⟩] : List Task)
    ∧ remove_task [⟨"P", "d", [⟨"t", false, 1⟩]⟩] 0 ⟨"zz", false, 1⟩
      = ([⟨"P", "d", [⟨"t", false, 1⟩]⟩], false) := by
  refine ⟨rfl, by decide, ?_⟩
  exact C10_remove_absent_noop [⟨"P", "d", [⟨"t", false, 1⟩]⟩] 0
    ⟨"P", "d", [⟨"t", false, 1⟩]⟩ ⟨"zz", false, 1⟩ rfl (by decide)

end ProjectOrganizer
